import Mathlib

/-
Verification of the vivarium output-scheduling core
(src/vivarium_assistant/src/domain/outputs.rs).

Times of day (chrono NaiveTime values built with from_hms_opt) are modelled
as seconds since midnight, a Nat below 86400.  The hour of such a time is
the quotient by 3600, and NaiveTime plus a TimeDelta of n seconds wraps
modulo 86400.  Hardware pins are modelled by their stored OutputPinState,
exactly as MockOutputPin stores it; a step of the controller additionally
reports how many hardware writes (set_high or set_low calls) it issued.
Fallible constructors return Except String.
-/

namespace Vivarium

def secondsInAnImaginaryDay : Nat := 24 * 60 * 60

/-- models ScheduledActivation: a start time of day plus a duration. -/
structure ScheduledActivation where
  when : Nat
  for_seconds : Nat
deriving DecidableEq, Repr

/-- models ScheduledActivation::new with its two validation branches. -/
def ScheduledActivation.new (w : Nat) (for_seconds : Nat) :
    Except String ScheduledActivation :=
  if for_seconds = 0 then
    Except.error ("activating for 0 seconds is nonsense")
  else if for_seconds > secondsInAnImaginaryDay then
    Except.error ("for_seconds exceeds the imaginary day")
  else
    Except.ok { when := w, for_seconds := for_seconds }

/-- models ScheduledActivation::end (a keyword in Lean, hence endTime):
the start plus the duration, wrapping modulo one day as NaiveTime addition
does. -/
def ScheduledActivation.endTime (a : ScheduledActivation) : Nat :=
  (a.when + a.for_seconds) % secondsInAnImaginaryDay

/-- models ScheduledActivation::has_inside, including the start = end
special case and the hour-based midnight-wrap test. -/
def ScheduledActivation.has_inside (a : ScheduledActivation) (time : Nat) : Bool :=
  let start := a.when
  let e := a.endTime
  if start = e then
    true
  else if e / 3600 < start / 3600 then
    decide (start ≤ time) || decide (time ≤ e)
  else
    decide (start ≤ time) && decide (time ≤ e)

/-- models ScheduledActivation::overlaps: a boundary-point test in both
directions. -/
def ScheduledActivation.overlaps (a other : ScheduledActivation) : Bool :=
  a.has_inside other.when || a.has_inside other.endTime ||
    other.has_inside a.when || other.has_inside a.endTime

/-- models ScheduledActivations: the validated collection of windows. -/
structure ScheduledActivations where
  activations : List ScheduledActivation
deriving DecidableEq, Repr

/-- models ScheduledActivations::new: error as soon as two windows at
distinct indices overlap, otherwise keep the whole list. -/
def ScheduledActivations.new (activations : List ScheduledActivation) :
    Except String ScheduledActivations :=
  if (List.range activations.length).any (fun i =>
      (List.range activations.length).any (fun j =>
        decide (i ≠ j) &&
          ((activations.getD i ⟨0, 0⟩).overlaps (activations.getD j ⟨0, 0⟩))))
  then
    Except.error ("activations cant overlap")
  else
    Except.ok ⟨activations⟩

/-- models ScheduledActivations::has_inside: any member window contains the
time. -/
def ScheduledActivations.has_inside (s : ScheduledActivations) (time : Nat) : Bool :=
  s.activations.any (fun a => a.has_inside time)

structure OutputName where
  name : String
deriving DecidableEq, Repr

/-- models OutputDefinition: name, pin number and base schedule. -/
structure OutputDefinition where
  name : OutputName
  pin : Nat
  activations : ScheduledActivations
deriving DecidableEq, Repr

inductive OutputState where
  | On
  | Off
deriving DecidableEq, Repr

inductive OutputPinState where
  | Low
  | High
deriving DecidableEq, Repr

/-- models the From impl turning a pin state into an output state. -/
def OutputPinState.toOutputState : OutputPinState → OutputState
  | OutputPinState.Low => OutputState.Off
  | OutputPinState.High => OutputState.On

/-- models Override: target state, window and the triggered flag. -/
structure Override where
  state : OutputState
  activation : ScheduledActivation
  was_triggered : Bool
deriving DecidableEq, Repr

/-- models Override::new: the flag starts false. -/
def Override.new (state : OutputState) (activation : ScheduledActivation) : Override :=
  { state := state, activation := activation, was_triggered := false }

/-- models ControlledOutput; the pin field is the state the hardware pin
reports, exactly what MockOutputPin stores. -/
structure ControlledOutput where
  definition : OutputDefinition
  pin : OutputPinState
  overrides : List Override
deriving DecidableEq, Repr

/-- the loop inside ControlledOutput::target_state: walk the overrides in
order, set the triggered flag of the first one containing now and return
its state. -/
def targetStateLoop (now : Nat) : List Override → Option OutputState × List Override
  | [] => (none, [])
  | o :: rest =>
    if o.activation.has_inside now then
      (some o.state, { o with was_triggered := true } :: rest)
    else
      let p := targetStateLoop now rest
      (p.1, o :: p.2)

/-- models ControlledOutput::target_state: first matching override wins,
otherwise the base schedule decides On or Off. -/
def ControlledOutput.target_state (c : ControlledOutput) (now : Nat) :
    OutputState × ControlledOutput :=
  match targetStateLoop now c.overrides with
  | (some s, ovs) => (s, { c with overrides := ovs })
  | (none, ovs) =>
    (if c.definition.activations.has_inside now then OutputState.On else OutputState.Off,
      { c with overrides := ovs })

/-- models ControlledOutput::cleanup_overrides: retain a window still
containing now or never triggered. -/
def ControlledOutput.cleanup_overrides (c : ControlledOutput) (now : Nat) :
    ControlledOutput :=
  { c with overrides :=
      c.overrides.filter (fun v => v.activation.has_inside now || !v.was_triggered) }

/-- one iteration of the loop in Controller::update_outputs_for_time:
evaluate the target state, write the pin only when it differs from the
reported state (the Nat counts set_high and set_low calls), then garbage
collect the overrides. -/
def stepOutput (now : Nat) (output : ControlledOutput) : ControlledOutput × Nat :=
  let p := output.target_state now
  let q :=
    match p.1 with
    | OutputState.On =>
      if p.2.pin ≠ OutputPinState.High then
        ({ p.2 with pin := OutputPinState.High }, 1)
      else
        (p.2, 0)
    | OutputState.Off =>
      if p.2.pin ≠ OutputPinState.Low then
        ({ p.2 with pin := OutputPinState.Low }, 1)
      else
        (p.2, 0)
  (q.1.cleanup_overrides now, q.2)

/-- models Controller: the list of controlled outputs (the time provider is
passed explicitly as the now argument). -/
structure Controller where
  outputs : List ControlledOutput
deriving DecidableEq, Repr

/-- models Controller::update_outputs_for_time; also returns the total
number of hardware writes the tick issued. -/
def Controller.update_outputs_for_time (c : Controller) (now : Nat) :
    Controller × Nat :=
  let stepped := c.outputs.map (stepOutput now)
  (⟨stepped.map Prod.fst⟩, (stepped.map Prod.snd).sum)

/-- the loop inside Controller::add_override: append to the first output
with the given name and stop; error past the end.  The returned list is the
state of the outputs after the call (unchanged on error, as the Rust loop
mutates nothing before returning the error). -/
def addOverrideLoop (output_name : OutputName) (state : OutputState)
    (activation : ScheduledActivation) :
    List ControlledOutput → Except String Unit × List ControlledOutput
  | [] => (Except.error ("output doesnt exist"), [])
  | o :: rest =>
    if o.definition.name = output_name then
      (Except.ok (),
        { o with overrides := o.overrides ++ [Override.new state activation] } :: rest)
    else
      let p := addOverrideLoop output_name state activation rest
      (p.1, o :: p.2)

/-- models Controller::add_override. -/
def Controller.add_override (c : Controller) (output_name : OutputName)
    (state : OutputState) (activation : ScheduledActivation) :
    Except String Unit × Controller :=
  let p := addOverrideLoop output_name state activation c.outputs
  (p.1, ⟨p.2⟩)

/-- the loop inside Controller::clear_overrides. -/
def clearOverridesLoop (output_name : OutputName) :
    List ControlledOutput → Except String Unit × List ControlledOutput
  | [] => (Except.error ("output doesnt exist"), [])
  | o :: rest =>
    if o.definition.name = output_name then
      (Except.ok (), { o with overrides := [] } :: rest)
    else
      let p := clearOverridesLoop output_name rest
      (p.1, o :: p.2)

/-- models Controller::clear_overrides. -/
def Controller.clear_overrides (c : Controller) (output_name : OutputName) :
    Except String Unit × Controller :=
  let p := clearOverridesLoop output_name c.outputs
  (p.1, ⟨p.2⟩)

/-- models Controller::fail_safe: set_low on every pin, unconditionally;
the Rust function returns no Result, which this total function mirrors. -/
def Controller.fail_safe (c : Controller) : Controller :=
  ⟨c.outputs.map (fun o => { o with pin := OutputPinState.Low })⟩


/-- a default override value, used only as the fallback of list lookups in
statements. -/
def defaultOverride : Override :=
  { state := OutputState.Off, activation := { when := 0, for_seconds := 0 },
    was_triggered := false }

/-! ## Theorems -/

/-- Claim C8: ScheduledActivation.new succeeds exactly when the duration is
between 1 and 86400 seconds, and fails (with the invalid-window error)
exactly when it is 0 or above 86400. -/
theorem claim_C8 (w d : Nat) :
    ((∃ a, ScheduledActivation.new w d = Except.ok a) ↔ 1 ≤ d ∧ d ≤ 86400)
    ∧ ((∃ e, ScheduledActivation.new w d = Except.error e) ↔ (d = 0 ∨ d > 86400)) := by
  have h86 : secondsInAnImaginaryDay = 86400 := rfl
  unfold ScheduledActivation.new
  rw [h86]
  split
  · rename_i h
    subst h
    simp
  · rename_i h
    split
    · rename_i h2
      simp
      omega
    · rename_i h2
      simp
      omega

/-- Instance of claim C8 at a concrete duration. -/
theorem claim_C8_witness : 1 ≤ 10 ∧ 10 ≤ 86400 :=
  (claim_C8 0 10).1.mp ⟨{ when := 0, for_seconds := 10 }, rfl⟩

/-- Claim C9: the overlap test is symmetric for every pair of windows. -/
theorem claim_C9 (a b : ScheduledActivation) : a.overlaps b = b.overlaps a := by
  simp only [ScheduledActivation.overlaps]
  cases a.has_inside b.when <;> cases a.has_inside b.endTime <;>
    cases b.has_inside a.when <;> cases b.has_inside a.endTime <;> rfl

/-- Claim C3: after fail_safe every pin of every output is Low, the set of
outputs is preserved, and the operation is total (it returns no error). -/
theorem claim_C3 (c : Controller) :
    ((c.fail_safe).outputs.all (fun o => decide (o.pin = OutputPinState.Low)) = true)
    ∧ (c.fail_safe).outputs.length = c.outputs.length
    ∧ (c.fail_safe).outputs.map (fun o => o.definition) = c.outputs.map (fun o => o.definition)
    ∧ (c.fail_safe).outputs.map (fun o => o.overrides) = c.outputs.map (fun o => o.overrides) := by
  refine ⟨?_, ?_, ?_, ?_⟩ <;> simp [Controller.fail_safe, List.all_eq_true]

/-- Claim C7 counterexample: the window starting at 00:59:59 (second 3599)
with duration 86399 is validly constructed, yet has_inside is false at its
own start and at its own end.  Its end is 00:59:58, so end and start share
hour 0, the midnight-wrap branch is not taken, and the non-wrapping test
3599 ≤ t ∧ t ≤ 3598 holds for no t. -/
theorem claim_C7_cex :
    ScheduledActivation.new 3599 86399
        = Except.ok { when := 3599, for_seconds := 86399 }
    ∧ (ScheduledActivation.mk 3599 86399).has_inside 3599 = false
    ∧ (ScheduledActivation.mk 3599 86399).has_inside
        (ScheduledActivation.mk 3599 86399).endTime = false :=
  ⟨rfl, by decide, by decide⟩

/-- Claim C7 as amended: every validly constructed window contains its own
start time and its own end time, provided that when the end lies before the
start on the clock face the hour of the end is strictly below the hour of
the start (that is, the window does not wrap all the way around into the
very hour of its own start). -/
theorem claim_C7_amended (w d : Nat) (a : ScheduledActivation)
    (_hmk : ScheduledActivation.new w d = Except.ok a)
    (hwrap : a.endTime < a.when → a.endTime / 3600 < a.when / 3600) :
    a.has_inside a.when = true ∧ a.has_inside a.endTime = true := by
  rcases Nat.lt_trichotomy a.when a.endTime with hlt | heq | hgt
  · have hne : ¬ (a.when = a.endTime) := Nat.ne_of_lt hlt
    have hh : ¬ (a.endTime / 3600 < a.when / 3600) :=
      Nat.not_lt.mpr (Nat.div_le_div_right (Nat.le_of_lt hlt))
    constructor <;>
      simp [ScheduledActivation.has_inside, hne, hh, Nat.le_of_lt hlt]
  · simp [ScheduledActivation.has_inside, heq]
  · have hne : ¬ (a.when = a.endTime) := (Nat.ne_of_lt hgt).symm
    have hh := hwrap hgt
    constructor <;>
      simp [ScheduledActivation.has_inside, hne, hh]

/-- Instance of the amended claim C7 at a concrete window. -/
theorem claim_C7_amended_witness :
    (ScheduledActivation.mk 43200 600).has_inside 43200 = true
    ∧ (ScheduledActivation.mk 43200 600).has_inside
        (ScheduledActivation.mk 43200 600).endTime = true := by
  have h := claim_C7_amended 43200 600 (ScheduledActivation.mk 43200 600) rfl (by decide)
  exact h

/-- Claim C6: ScheduledActivations.new succeeds exactly when no two windows
at distinct positions overlap; in particular the empty collection is
accepted, and two back-to-back windows (the end of one equal to the start
of the other) do count as overlapping. -/
theorem claim_C6 (l : List ScheduledActivation) :
    ((∃ s, ScheduledActivations.new l = Except.ok s) ↔
      ∀ (i j : Nat) (hi : i < l.length) (hj : j < l.length), i ≠ j →
        (l.get ⟨i, hi⟩).overlaps (l.get ⟨j, hj⟩) = false)
    ∧ (∃ s, ScheduledActivations.new ([] : List ScheduledActivation) = Except.ok s)
    ∧ (ScheduledActivation.mk 43200 600).overlaps (ScheduledActivation.mk 43800 600) = true := by
  refine ⟨?_, ⟨⟨[]⟩, rfl⟩, by decide⟩
  have key : ((List.range l.length).any (fun i =>
      (List.range l.length).any (fun j =>
        decide (i ≠ j) &&
          ((l.getD i ⟨0, 0⟩).overlaps (l.getD j ⟨0, 0⟩)))) = false) ↔
      (∀ (i j : Nat) (hi : i < l.length) (hj : j < l.length), i ≠ j →
        (l.get ⟨i, hi⟩).overlaps (l.get ⟨j, hj⟩) = false) := by
    constructor
    · intro hfalse i j hi hj hne
      rw [List.any_eq_false] at hfalse
      have h1 := hfalse i (List.mem_range.mpr hi)
      rw [Bool.not_eq_true, List.any_eq_false] at h1
      have h2 := h1 j (List.mem_range.mpr hj)
      rw [Bool.not_eq_true] at h2
      rcases Bool.and_eq_false_iff.mp h2 with h3 | h3
      · rw [decide_eq_false_iff_not] at h3
        exact absurd hne h3
      · rw [List.getD_eq_getElem _ _ hi, List.getD_eq_getElem _ _ hj] at h3
        rw [List.get_eq_getElem, List.get_eq_getElem]
        exact h3
    · intro hall
      rw [List.any_eq_false]
      intro i hirange
      have hi := List.mem_range.mp hirange
      rw [Bool.not_eq_true, List.any_eq_false]
      intro j hjrange
      have hj := List.mem_range.mp hjrange
      rw [Bool.not_eq_true]
      by_cases hij : i = j
      · subst hij
        simp
      · have h3 := hall i j hi hj hij
        rw [List.get_eq_getElem, List.get_eq_getElem] at h3
        rw [List.getD_eq_getElem _ _ hi, List.getD_eq_getElem _ _ hj]
        simp [h3]
  unfold ScheduledActivations.new
  split
  · rename_i hcond
    constructor
    · intro hex
      obtain ⟨s, hs⟩ := hex
      cases hs
    · intro hall
      rw [key.mpr hall] at hcond
      cases hcond
  · rename_i hcond
    rw [Bool.not_eq_true] at hcond
    constructor
    · intro _
      exact key.mp hcond
    · intro _
      exact ⟨⟨l⟩, rfl⟩

/-- Instance of claim C6: the empty collection of windows is accepted. -/
theorem claim_C6_witness : ∃ s, ScheduledActivations.new [] = Except.ok s :=
  (claim_C6 []).2.1

/-- If no override window contains now, the target-state loop returns no
override state and leaves the override list untouched. -/
theorem targetStateLoop_none (now : Nat) (ovs : List Override)
    (h : ∀ o ∈ ovs, o.activation.has_inside now = false) :
    targetStateLoop now ovs = (none, ovs) := by
  induction ovs with
  | nil => rfl
  | cons o rest ih =>
    have ho : o.activation.has_inside now = false := h o (List.mem_cons_self o rest)
    have hrest := ih (fun x hx => h x (List.mem_cons_of_mem o hx))
    simp [targetStateLoop, ho, hrest]

/-- If position i holds the first override whose window contains now, the
target-state loop returns the state of that override and sets exactly its
triggered flag. -/
theorem targetStateLoop_first (now : Nat) (ovs : List Override) (i : Nat)
    (hi : i < ovs.length)
    (hmatch : (ovs.get ⟨i, hi⟩).activation.has_inside now = true)
    (hbefore : ∀ (j : Nat) (hj : j < i),
      (ovs.get ⟨j, Nat.lt_trans hj hi⟩).activation.has_inside now = false) :
    targetStateLoop now ovs =
      (some (ovs.get ⟨i, hi⟩).state,
        ovs.set i { ovs.get ⟨i, hi⟩ with was_triggered := true }) := by
  induction ovs generalizing i with
  | nil => exact absurd hi (Nat.not_lt_zero i)
  | cons o rest ih =>
    cases i with
    | zero =>
      simp only [List.get] at hmatch
      simp [targetStateLoop, hmatch, List.set]
    | succ k =>
      have h0 : o.activation.has_inside now = false := hbefore 0 (Nat.succ_pos k)
      have hk : k < rest.length := Nat.lt_of_succ_lt_succ hi
      have hmatch2 : (rest.get ⟨k, hk⟩).activation.has_inside now = true := hmatch
      have hbefore2 : ∀ (j : Nat) (hj : j < k),
          (rest.get ⟨j, Nat.lt_trans hj hk⟩).activation.has_inside now = false :=
        fun j hj => hbefore (j + 1) (Nat.succ_lt_succ hj)
      have hrec := ih k hk hmatch2 hbefore2
      simp [targetStateLoop, h0, hrec, List.set]

/-- Claim C1: when some override window contains now, target_state returns
the state of the first such override in insertion order and sets its
triggered flag (the new override list is the old one with exactly that
entry flagged); when none does, it returns On exactly when the base
schedule contains now, and leaves the overrides unchanged. -/
theorem claim_C1 (c : ControlledOutput) (now : Nat) :
    (∀ (i : Nat) (hi : i < c.overrides.length),
      (c.overrides.get ⟨i, hi⟩).activation.has_inside now = true →
      (∀ (j : Nat) (hj : j < i),
        (c.overrides.get ⟨j, Nat.lt_trans hj hi⟩).activation.has_inside now = false) →
      (c.target_state now).1 = (c.overrides.get ⟨i, hi⟩).state
      ∧ (c.target_state now).2.overrides =
          c.overrides.set i { c.overrides.get ⟨i, hi⟩ with was_triggered := true })
    ∧ ((∀ o ∈ c.overrides, o.activation.has_inside now = false) →
      (c.target_state now).1 =
        (if c.definition.activations.has_inside now then OutputState.On else OutputState.Off)
      ∧ (c.target_state now).2.overrides = c.overrides) := by
  constructor
  · intro i hi hmatch hbefore
    have hl := targetStateLoop_first now c.overrides i hi hmatch hbefore
    unfold ControlledOutput.target_state
    rw [hl]
    exact ⟨rfl, rfl⟩
  · intro h
    have hl := targetStateLoop_none now c.overrides h
    unfold ControlledOutput.target_state
    rw [hl]
    exact ⟨rfl, rfl⟩

/-- Instance of claim C1: a single active Off override wins over an empty
base schedule at noon. -/
theorem claim_C1_witness :
    ((ControlledOutput.mk (OutputDefinition.mk ⟨"out"⟩ 1 ⟨[]⟩) OutputPinState.Low
        [Override.new OutputState.Off (ScheduledActivation.mk 43195 10)]).target_state
      43200).1 = OutputState.Off := by
  have h := (claim_C1 (ControlledOutput.mk (OutputDefinition.mk ⟨"out"⟩ 1 ⟨[]⟩)
      OutputPinState.Low
      [Override.new OutputState.Off (ScheduledActivation.mk 43195 10)]) 43200).1
      0 (by decide) (by decide) (fun j hj => absurd hj (Nat.not_lt_zero j))
  exact h.1

/-- The target-state loop preserves the number of overrides. -/
theorem targetStateLoop_length (now : Nat) (ovs : List Override) :
    (targetStateLoop now ovs).2.length = ovs.length := by
  induction ovs with
  | nil => rfl
  | cons o rest ih =>
    by_cases h : o.activation.has_inside now = true
    · simp [targetStateLoop, h]
    · simp only [Bool.not_eq_true] at h
      simp [targetStateLoop, h, ih]

/-- The second component of target_state carries the loop result as its
override list. -/
theorem target_state_overrides (c : ControlledOutput) (now : Nat) :
    (c.target_state now).2.overrides = (targetStateLoop now c.overrides).2 := by
  unfold ControlledOutput.target_state
  rcases h : targetStateLoop now c.overrides with ⟨s, ovs⟩
  cases s <;> simp

/-- target_state changes neither the definition nor the pin. -/
theorem target_state_frame (c : ControlledOutput) (now : Nat) :
    (c.target_state now).2.definition = c.definition
    ∧ (c.target_state now).2.pin = c.pin := by
  unfold ControlledOutput.target_state
  rcases h : targetStateLoop now c.overrides with ⟨s, ovs⟩
  cases s <;> exact ⟨rfl, rfl⟩

/-- Claim C10: a target_state evaluation changes nothing but the triggered
flag of the first matching override: definition and pin are untouched, the
override count is unchanged, every position other than the first match is
untouched, and a shadowed override that keeps its false flag survives any
later garbage collection; when no override matches, the output is returned
entirely unchanged. -/
theorem claim_C10 (c : ControlledOutput) (now : Nat) :
    ((c.target_state now).2.definition = c.definition)
    ∧ ((c.target_state now).2.pin = c.pin)
    ∧ ((c.target_state now).2.overrides.length = c.overrides.length)
    ∧ (∀ (i : Nat) (hi : i < c.overrides.length),
        (c.overrides.get ⟨i, hi⟩).activation.has_inside now = true →
        (∀ (j : Nat) (hj : j < i),
          (c.overrides.get ⟨j, Nat.lt_trans hj hi⟩).activation.has_inside now = false) →
        ∀ (k : Nat) (hk : k < c.overrides.length), k ≠ i →
          (c.target_state now).2.overrides.getD k defaultOverride = c.overrides.get ⟨k, hk⟩
          ∧ ((c.overrides.get ⟨k, hk⟩).was_triggered = false →
              ∀ t2 : Nat, (c.overrides.get ⟨k, hk⟩) ∈
                ((c.target_state now).2.cleanup_overrides t2).overrides))
    ∧ ((∀ o ∈ c.overrides, o.activation.has_inside now = false) →
        (c.target_state now).2 = c) := by
  refine ⟨(target_state_frame c now).1, (target_state_frame c now).2, ?_, ?_, ?_⟩
  · rw [target_state_overrides]
    exact targetStateLoop_length now c.overrides
  · intro i hi hmatch hbefore k hk hki
    have hl := targetStateLoop_first now c.overrides i hi hmatch hbefore
    have hov : (c.target_state now).2.overrides =
        c.overrides.set i { c.overrides.get ⟨i, hi⟩ with was_triggered := true } := by
      rw [target_state_overrides, hl]
    have hklen : k < (c.overrides.set i { c.overrides.get ⟨i, hi⟩ with
        was_triggered := true }).length := by
      simpa using hk
    have hgd : (c.target_state now).2.overrides.getD k defaultOverride
        = c.overrides.get ⟨k, hk⟩ := by
      rw [hov]
      rw [List.getD_eq_getElem _ _ hklen]
      rw [List.getElem_set_ne (Ne.symm hki)]
      exact (List.get_eq_getElem c.overrides ⟨k, hk⟩).symm
    refine ⟨hgd, ?_⟩
    intro hflag t2
    have hmem : c.overrides.get ⟨k, hk⟩ ∈ (c.target_state now).2.overrides := by
      have hm : (c.target_state now).2.overrides.getD k defaultOverride
          ∈ (c.target_state now).2.overrides := by
        rw [hov]
        rw [List.getD_eq_getElem _ _ hklen]
        exact List.getElem_mem hklen
      rwa [hgd] at hm
    unfold ControlledOutput.cleanup_overrides
    simp only [List.mem_filter]
    refine ⟨hmem, ?_⟩
    simp only [Bool.or_eq_true, Bool.not_eq_true']
    exact Or.inr hflag
  · intro h
    have hl := targetStateLoop_none now c.overrides h
    unfold ControlledOutput.target_state
    rw [hl]

/-- Instance of claim C10: with an earlier matching override, the later
override at position 1 is untouched. -/
theorem claim_C10_witness :
    ((ControlledOutput.mk (OutputDefinition.mk ⟨"out"⟩ 1 ⟨[]⟩) OutputPinState.Low
        [Override.new OutputState.Off (ScheduledActivation.mk 43195 10),
         Override.new OutputState.On (ScheduledActivation.mk 43195 10)]).target_state
      43200).2.overrides.getD 1 defaultOverride
    = Override.new OutputState.On (ScheduledActivation.mk 43195 10) := by
  have h := (claim_C10 (ControlledOutput.mk (OutputDefinition.mk ⟨"out"⟩ 1 ⟨[]⟩)
      OutputPinState.Low
      [Override.new OutputState.Off (ScheduledActivation.mk 43195 10),
       Override.new OutputState.On (ScheduledActivation.mk 43195 10)]) 43200).2.2.2.1
      0 (by decide) (by decide) (fun j hj => absurd hj (Nat.not_lt_zero j))
      1 (by decide) (by decide)
  exact h.1

/-- After the pin write, a step keeps the overrides the loop produced,
filtered by the retention test of cleanup_overrides. -/
theorem stepOutput_overrides (now : Nat) (o : ControlledOutput) :
    (stepOutput now o).1.overrides =
      ((targetStateLoop now o.overrides).2).filter
        (fun v => v.activation.has_inside now || !v.was_triggered) := by
  have hov := target_state_overrides o now
  unfold stepOutput ControlledOutput.cleanup_overrides
  cases h1 : (o.target_state now).1 <;>
    · simp only [h1]
      split <;> simp [hov]

/-- Unfolding lemma: the loop on a matching head. -/
theorem targetStateLoop_cons_pos (now : Nat) (o : Override) (rest : List Override)
    (h : o.activation.has_inside now = true) :
    targetStateLoop now (o :: rest)
      = (some o.state, { o with was_triggered := true } :: rest) := by
  simp [targetStateLoop, h]

/-- Unfolding lemma: the loop on a non-matching head. -/
theorem targetStateLoop_cons_neg (now : Nat) (o : Override) (rest : List Override)
    (h : o.activation.has_inside now = false) :
    targetStateLoop now (o :: rest)
      = ((targetStateLoop now rest).1, o :: (targetStateLoop now rest).2) := by
  simp [targetStateLoop, h]

/-- Filtering a list zipped with itself by a test on the second component
is filtering by the test. -/
theorem zip_self_filterMap (p : Override → Bool) (l : List Override) :
    (l.zip l).filterMap (fun q => if p q.2 then some q.1 else none)
      = l.filter p := by
  induction l with
  | nil => rfl
  | cons o rest ih =>
    by_cases h : p o = true
    · simp [List.filterMap_cons, List.filter_cons, h, ih]
    · simp only [Bool.not_eq_true] at h
      simp [List.filterMap_cons, List.filter_cons, h, ih]

/-- The cleanup filter applied to the flagged override list keeps exactly
the entries whose pre-step value passes the retention test: filtering the
flagged list zipped against the original one by the test on the original
values. -/
theorem targetStateLoop_filter_zip (now : Nat) (ovs : List Override) :
    ((targetStateLoop now ovs).2).filter
        (fun v => v.activation.has_inside now || !v.was_triggered)
      = (((targetStateLoop now ovs).2).zip ovs).filterMap
          (fun q => if q.2.activation.has_inside now || !q.2.was_triggered
            then some q.1 else none) := by
  induction ovs with
  | nil => rfl
  | cons o rest ih =>
    by_cases h : o.activation.has_inside now = true
    · rw [targetStateLoop_cons_pos now o rest h]
      simp only [List.zip_cons_cons, List.filterMap_cons, List.filter_cons, h,
        Bool.true_or, if_true]
      exact congrArg (List.cons _) (zip_self_filterMap
        (fun v => v.activation.has_inside now || !v.was_triggered) rest).symm
    · simp only [Bool.not_eq_true] at h
      rw [targetStateLoop_cons_neg now o rest h]
      by_cases hf : o.was_triggered = true
      · simp only [List.zip_cons_cons, List.filterMap_cons, List.filter_cons, h, hf,
          Bool.not_true, Bool.or_false, Bool.false_eq_true, if_false]
        exact ih
      · simp only [Bool.not_eq_true] at hf
        simp only [List.zip_cons_cons, List.filterMap_cons, List.filter_cons, h, hf,
          Bool.not_false, Bool.or_true, if_true]
        exact congrArg (List.cons _) ih

/-- A member override whose window does not contain now is carried through
the target-state loop unchanged. -/
theorem targetStateLoop_mem (now : Nat) (ovs : List Override) (ov : Override)
    (hmem : ov ∈ ovs) (hout : ov.activation.has_inside now = false) :
    ov ∈ (targetStateLoop now ovs).2 := by
  induction ovs with
  | nil => cases hmem
  | cons o rest ih =>
    by_cases h : o.activation.has_inside now = true
    · rw [targetStateLoop_cons_pos now o rest h]
      rcases List.mem_cons.mp hmem with he | hr
      · subst he
        rw [hout] at h
        cases h
      · exact List.mem_cons_of_mem _ hr
    · simp only [Bool.not_eq_true] at h
      rw [targetStateLoop_cons_neg now o rest h]
      rcases List.mem_cons.mp hmem with he | hr
      · subst he
        exact List.mem_cons_self _ _
      · exact List.mem_cons_of_mem _ (ih hr)

/-- Claim C2: an update tick maps every output through stepOutput, and a
step removes an override exactly when its pre-step window does not contain
now and its pre-step triggered flag is set (the surviving entries being the
flag-updated ones, in order); in particular an override whose window does
not contain now and which was never triggered, such as one still in the
future, is retained. -/
theorem claim_C2 (c : Controller) (now : Nat) :
    ((c.update_outputs_for_time now).1.outputs
        = c.outputs.map (fun o => (stepOutput now o).1))
    ∧ (∀ o : ControlledOutput,
        (stepOutput now o).1.overrides =
          (((targetStateLoop now o.overrides).2).zip o.overrides).filterMap
            (fun q => if q.2.activation.has_inside now || !q.2.was_triggered
              then some q.1 else none))
    ∧ (∀ (o : ControlledOutput) (ov : Override), ov ∈ o.overrides →
        ov.activation.has_inside now = false → ov.was_triggered = false →
        ov ∈ (stepOutput now o).1.overrides) := by
  refine ⟨?_, ?_, ?_⟩
  · simp [Controller.update_outputs_for_time, List.map_map, Function.comp]
  · intro o
    rw [stepOutput_overrides, targetStateLoop_filter_zip]
  · intro o ov hmem hout hflag
    rw [stepOutput_overrides]
    refine List.mem_filter.mpr ⟨targetStateLoop_mem now o.overrides ov hmem hout, ?_⟩
    simp [hflag]

/-- Instance of claim C2: a triggered past override is dropped while an
untriggered future override is retained. -/
theorem claim_C2_witness :
    (stepOutput 43200 (ControlledOutput.mk (OutputDefinition.mk ⟨"out"⟩ 1 ⟨[]⟩)
        OutputPinState.Low
        [Override.mk OutputState.On (ScheduledActivation.mk 64800 10) false,
         Override.mk OutputState.On (ScheduledActivation.mk 21600 10) true])).1.overrides
      = [Override.mk OutputState.On (ScheduledActivation.mk 64800 10) false] := by
  have h := (claim_C2 (Controller.mk []) 43200).2.2
      (ControlledOutput.mk (OutputDefinition.mk ⟨"out"⟩ 1 ⟨[]⟩) OutputPinState.Low
        [Override.mk OutputState.On (ScheduledActivation.mk 64800 10) false,
         Override.mk OutputState.On (ScheduledActivation.mk 21600 10) true])
      (Override.mk OutputState.On (ScheduledActivation.mk 64800 10) false)
      (by decide) (by decide) rfl
  revert h
  decide

/-- A step issues a hardware write exactly when the computed target state
differs from the state the pin reports. -/
theorem stepOutput_snd (now : Nat) (o : ControlledOutput) :
    (stepOutput now o).2 =
      if (o.target_state now).1 = o.pin.toOutputState then 0 else 1 := by
  have hpin := (target_state_frame o now).2
  unfold stepOutput
  cases h1 : (o.target_state now).1 <;> cases h2 : o.pin <;>
    simp [h1, hpin, h2, OutputPinState.toOutputState]

/-- After a step the pin reports exactly the computed target state. -/
theorem stepOutput_pin_toOutputState (now : Nat) (o : ControlledOutput) :
    (stepOutput now o).1.pin.toOutputState = (o.target_state now).1 := by
  have hpin := (target_state_frame o now).2
  unfold stepOutput ControlledOutput.cleanup_overrides
  cases h1 : (o.target_state now).1 <;> cases h2 : o.pin <;>
    simp [h1, hpin, h2, OutputPinState.toOutputState]

/-- When the target already matches the reported state, the pin is left
alone. -/
theorem stepOutput_pin_of_eq (now : Nat) (o : ControlledOutput)
    (h : (o.target_state now).1 = o.pin.toOutputState) :
    (stepOutput now o).1.pin = o.pin := by
  have hpin := (target_state_frame o now).2
  unfold stepOutput ControlledOutput.cleanup_overrides
  cases h1 : (o.target_state now).1 <;> cases h2 : o.pin <;>
    rw [h1, h2] at h <;>
    simp [OutputPinState.toOutputState] at h ⊢ <;>
    simp [h1, hpin, h2]

/-- A step does not change the output definition. -/
theorem stepOutput_def (now : Nat) (o : ControlledOutput) :
    (stepOutput now o).1.definition = o.definition := by
  have hdef := (target_state_frame o now).1
  unfold stepOutput ControlledOutput.cleanup_overrides
  cases h1 : (o.target_state now).1 <;>
    · simp only [h1]
      split <;> simp [hdef]

/-- Rerunning the target-state loop on the cleaned-up flagged list gives
back the same override decision. -/
theorem targetStateLoop_fst_tick (now : Nat) (ovs : List Override) :
    (targetStateLoop now (((targetStateLoop now ovs).2).filter
        (fun v => v.activation.has_inside now || !v.was_triggered))).1
      = (targetStateLoop now ovs).1 := by
  induction ovs with
  | nil => rfl
  | cons o rest ih =>
    by_cases h : o.activation.has_inside now = true
    · rw [targetStateLoop_cons_pos now o rest h]
      simp only [List.filter_cons, h, Bool.true_or, if_true]
      rw [targetStateLoop_cons_pos now { o with was_triggered := true }
        (List.filter (fun v => v.activation.has_inside now || !v.was_triggered) rest) h]
    · simp only [Bool.not_eq_true] at h
      rw [targetStateLoop_cons_neg now o rest h]
      by_cases hf : o.was_triggered = true
      · simp only [List.filter_cons, h, hf, Bool.not_true, Bool.or_false,
          Bool.false_eq_true, if_false]
        exact ih
      · simp only [Bool.not_eq_true] at hf
        simp only [List.filter_cons, h, hf, Bool.not_false, Bool.or_true, if_true]
        rw [targetStateLoop_cons_neg now o _ h]
        exact ih

/-- Rerunning target_state right after a step at the same time computes the
same target state. -/
theorem stepOutput_target (now : Nat) (o : ControlledOutput) :
    ((stepOutput now o).1.target_state now).1 = (o.target_state now).1 := by
  have hov := stepOutput_overrides now o
  have hdef := stepOutput_def now o
  have hfst := targetStateLoop_fst_tick now o.overrides
  rw [← hov] at hfst
  unfold ControlledOutput.target_state
  rcases h2 : targetStateLoop now o.overrides with ⟨s2, l2⟩
  rcases h1 : targetStateLoop now (stepOutput now o).1.overrides with ⟨s1, l1⟩
  rw [h1, h2] at hfst
  simp only at hfst
  subst hfst
  cases s1 <;> simp [hdef]

/-- A second step at the same time issues no write and keeps the pin. -/
theorem stepOutput_idem (now : Nat) (o : ControlledOutput) :
    (stepOutput now (stepOutput now o).1).2 = 0
    ∧ (stepOutput now (stepOutput now o).1).1.pin = (stepOutput now o).1.pin := by
  have heq : ((stepOutput now o).1.target_state now).1
      = (stepOutput now o).1.pin.toOutputState := by
    rw [stepOutput_target now o, ← stepOutput_pin_toOutputState now o]
  constructor
  · rw [stepOutput_snd]
    simp [heq]
  · exact stepOutput_pin_of_eq now (stepOutput now o).1 heq

/-- Claim C4: a write is issued for an output exactly when the computed
target state differs from the state the pin reports, and a second
update_outputs run at the same time leaves every pin as it was and issues
zero hardware writes. -/
theorem claim_C4 (c : Controller) (now : Nat) :
    (∀ o : ControlledOutput,
      (stepOutput now o).2 =
        if (o.target_state now).1 = o.pin.toOutputState then 0 else 1)
    ∧ (((c.update_outputs_for_time now).1.update_outputs_for_time now).1.outputs.map
          (fun o => o.pin)
        = (c.update_outputs_for_time now).1.outputs.map (fun o => o.pin))
    ∧ ((c.update_outputs_for_time now).1.update_outputs_for_time now).2 = 0 := by
  refine ⟨fun o => stepOutput_snd now o, ?_, ?_⟩
  · unfold Controller.update_outputs_for_time
    simp only [List.map_map]
    apply List.map_congr_left
    intro o _
    simp only [Function.comp]
    exact (stepOutput_idem now o).2
  · unfold Controller.update_outputs_for_time
    simp only [List.map_map]
    apply List.sum_eq_zero
    intro x hx
    simp only [List.mem_map, Function.comp] at hx
    obtain ⟨o, _, hxo⟩ := hx
    rw [← hxo]
    exact (stepOutput_idem now o).1

/-- When no output carries the requested name, the add-override loop
errors out and touches nothing. -/
theorem addOverrideLoop_none (nm : OutputName) (st : OutputState)
    (act : ScheduledActivation) (outs : List ControlledOutput)
    (h : ∀ o ∈ outs, o.definition.name ≠ nm) :
    addOverrideLoop nm st act outs = (Except.error ("output doesnt exist"), outs) := by
  induction outs with
  | nil => rfl
  | cons o rest ih =>
    have ho : ¬ (o.definition.name = nm) := h o (List.mem_cons_self o rest)
    have hrest := ih (fun x hx => h x (List.mem_cons_of_mem o hx))
    simp [addOverrideLoop, ho, hrest]

/-- When position i holds the first output with the requested name, the
add-override loop succeeds and appends exactly there. -/
theorem addOverrideLoop_first (nm : OutputName) (st : OutputState)
    (act : ScheduledActivation) (outs : List ControlledOutput) (i : Nat)
    (hi : i < outs.length)
    (hmatch : (outs.get ⟨i, hi⟩).definition.name = nm)
    (hbefore : ∀ (j : Nat) (hj : j < i),
      (outs.get ⟨j, Nat.lt_trans hj hi⟩).definition.name ≠ nm) :
    addOverrideLoop nm st act outs =
      (Except.ok (), outs.set i { outs.get ⟨i, hi⟩ with
        overrides := (outs.get ⟨i, hi⟩).overrides ++ [Override.new st act] }) := by
  induction outs generalizing i with
  | nil => exact absurd hi (Nat.not_lt_zero i)
  | cons o rest ih =>
    cases i with
    | zero =>
      simp only [List.get] at hmatch
      simp [addOverrideLoop, hmatch, List.set]
    | succ k =>
      have h0 : ¬ (o.definition.name = nm) := hbefore 0 (Nat.succ_pos k)
      have hk : k < rest.length := Nat.lt_of_succ_lt_succ hi
      have hmatch2 : (rest.get ⟨k, hk⟩).definition.name = nm := hmatch
      have hbefore2 : ∀ (j : Nat) (hj : j < k),
          (rest.get ⟨j, Nat.lt_trans hj hk⟩).definition.name ≠ nm :=
        fun j hj => hbefore (j + 1) (Nat.succ_lt_succ hj)
      have hrec := ih k hk hmatch2 hbefore2
      simp [addOverrideLoop, h0, hrec, List.set]

/-- When no output carries the requested name, the clear-overrides loop
errors out and touches nothing. -/
theorem clearOverridesLoop_none (nm : OutputName) (outs : List ControlledOutput)
    (h : ∀ o ∈ outs, o.definition.name ≠ nm) :
    clearOverridesLoop nm outs = (Except.error ("output doesnt exist"), outs) := by
  induction outs with
  | nil => rfl
  | cons o rest ih =>
    have ho : ¬ (o.definition.name = nm) := h o (List.mem_cons_self o rest)
    have hrest := ih (fun x hx => h x (List.mem_cons_of_mem o hx))
    simp [clearOverridesLoop, ho, hrest]

/-- When position i holds the first output with the requested name, the
clear-overrides loop succeeds and empties exactly that list. -/
theorem clearOverridesLoop_first (nm : OutputName) (outs : List ControlledOutput)
    (i : Nat) (hi : i < outs.length)
    (hmatch : (outs.get ⟨i, hi⟩).definition.name = nm)
    (hbefore : ∀ (j : Nat) (hj : j < i),
      (outs.get ⟨j, Nat.lt_trans hj hi⟩).definition.name ≠ nm) :
    clearOverridesLoop nm outs =
      (Except.ok (), outs.set i { outs.get ⟨i, hi⟩ with overrides := [] }) := by
  induction outs generalizing i with
  | nil => exact absurd hi (Nat.not_lt_zero i)
  | cons o rest ih =>
    cases i with
    | zero =>
      simp only [List.get] at hmatch
      simp [clearOverridesLoop, hmatch, List.set]
    | succ k =>
      have h0 : ¬ (o.definition.name = nm) := hbefore 0 (Nat.succ_pos k)
      have hk : k < rest.length := Nat.lt_of_succ_lt_succ hi
      have hmatch2 : (rest.get ⟨k, hk⟩).definition.name = nm := hmatch
      have hbefore2 : ∀ (j : Nat) (hj : j < k),
          (rest.get ⟨j, Nat.lt_trans hj hk⟩).definition.name ≠ nm :=
        fun j hj => hbefore (j + 1) (Nat.succ_lt_succ hj)
      have hrec := ih k hk hmatch2 hbefore2
      simp [clearOverridesLoop, h0, hrec, List.set]

/-- Claim C5: with a name matching no output, add_override and
clear_overrides return the unknown-output error and leave the whole
controller unchanged; with a matching name (first match at position i,
which under the unique-name invariant of OutputDefinitions is the only
match), add_override appends the new override to exactly that output and
clear_overrides empties exactly that output, every other position being
untouched. -/
theorem claim_C5 (c : Controller) (nm : OutputName) (st : OutputState)
    (act : ScheduledActivation) :
    ((∀ o ∈ c.outputs, o.definition.name ≠ nm) →
      (∃ e, (c.add_override nm st act).1 = Except.error e)
      ∧ (c.add_override nm st act).2 = c
      ∧ (∃ e, (c.clear_overrides nm).1 = Except.error e)
      ∧ (c.clear_overrides nm).2 = c)
    ∧ (∀ (i : Nat) (hi : i < c.outputs.length),
        (c.outputs.get ⟨i, hi⟩).definition.name = nm →
        (∀ (j : Nat) (hj : j < i),
          (c.outputs.get ⟨j, Nat.lt_trans hj hi⟩).definition.name ≠ nm) →
        (c.add_override nm st act).1 = Except.ok ()
        ∧ (c.add_override nm st act).2.outputs =
            c.outputs.set i { c.outputs.get ⟨i, hi⟩ with
              overrides := (c.outputs.get ⟨i, hi⟩).overrides ++ [Override.new st act] }
        ∧ (c.clear_overrides nm).1 = Except.ok ()
        ∧ (c.clear_overrides nm).2.outputs =
            c.outputs.set i { c.outputs.get ⟨i, hi⟩ with overrides := [] }) := by
  constructor
  · intro h
    have ha := addOverrideLoop_none nm st act c.outputs h
    have hc := clearOverridesLoop_none nm c.outputs h
    unfold Controller.add_override Controller.clear_overrides
    rw [ha, hc]
    exact ⟨⟨_, rfl⟩, rfl, ⟨_, rfl⟩, rfl⟩
  · intro i hi hmatch hbefore
    have ha := addOverrideLoop_first nm st act c.outputs i hi hmatch hbefore
    have hc := clearOverridesLoop_first nm c.outputs i hi hmatch hbefore
    unfold Controller.add_override Controller.clear_overrides
    rw [ha, hc]
    exact ⟨rfl, rfl, rfl, rfl⟩

/-- Instance of claim C5: an unknown name errors and changes nothing on a
one-output controller. -/
theorem claim_C5_witness :
    (∃ e, ((Controller.mk [ControlledOutput.mk (OutputDefinition.mk ⟨"out"⟩ 1 ⟨[]⟩)
        OutputPinState.Low []]).add_override ⟨"other"⟩ OutputState.On
        (ScheduledActivation.mk 0 10)).1 = Except.error e)
    ∧ ((Controller.mk [ControlledOutput.mk (OutputDefinition.mk ⟨"out"⟩ 1 ⟨[]⟩)
        OutputPinState.Low []]).add_override ⟨"other"⟩ OutputState.On
        (ScheduledActivation.mk 0 10)).2
      = Controller.mk [ControlledOutput.mk (OutputDefinition.mk ⟨"out"⟩ 1 ⟨[]⟩)
          OutputPinState.Low []] := by
  have h := (claim_C5 (Controller.mk [ControlledOutput.mk
      (OutputDefinition.mk ⟨"out"⟩ 1 ⟨[]⟩) OutputPinState.Low []]) ⟨"other"⟩
      OutputState.On (ScheduledActivation.mk 0 10)).1 (by decide)
  exact ⟨h.1, h.2.1⟩

end Vivarium
